import Mathlib

/-!
Verification development for the dionysus repository.

The repository couples an incremental forum-thread synchronization engine
(normalizer, identity resolver, diff engine, sync orchestrator) with a thin
React frontend. The frontend sources are embedded below directly from the
TypeScript code. The synchronization core is not part of the checked-out
sources, so its definitions are modelled from the specification text, as
marked in each doc comment.
-/

namespace Dionysus

/-- Stable identity of a post, as assigned by the Identity Resolver.
Modelled from the spec: primary key is the source-provided post ID,
fallback is the floor number, last resort is the position in the fetch. -/
inductive PostIdentity where
  | src (id : String)
  | floorKey (f : Nat)
  | positional (i : Nat)
deriving DecidableEq, Repr

/-- Canonical post value-object.
Modelled from the spec data model: author name/id, floor number, timestamp,
text content, image/link/embed URL lists, reaction count. -/
structure Post where
  postId : Option String
  floor : Option Nat
  authorName : Option String
  timestamp : Option Int
  contentText : Option String
  imageUrls : List String
  externalLinks : List String
  iframeUrls : List String
  reactions : Int
deriving DecidableEq, Repr

/-- A post as persisted in the Store: resolved identity plus content. -/
structure StoredPost where
  identity : PostIdentity
  post : Post
deriving DecidableEq, Repr

/-- Modelled from the spec: the content fingerprint the Diff Engine compares,
a hash over text content, reaction count and image/link/embed lists; the
hash is modelled as the tuple itself. -/
def fingerprint (p : Post) :
    Option String × Int × List String × List String × List String :=
  (p.contentText, p.reactions, p.imageUrls, p.externalLinks, p.iframeUrls)

/-- Modelled from the spec: author plus timestamp plus content hash, the
comparison used by the positional tier of the Identity Resolver. -/
def sameATC (a b : Post) : Bool :=
  a.authorName == b.authorName && a.timestamp == b.timestamp &&
    a.contentText == b.contentText

/-- Pairing confidence reported by the Identity Resolver. -/
inductive Confidence where
  | certain
  | uncertain
deriving DecidableEq, Repr

/-- One fresh post after identity resolution. -/
structure ResolvedPost where
  identity : PostIdentity
  post : Post
  isNew : Bool
  confidence : Confidence
deriving DecidableEq, Repr

/-- First stored post whose source post ID matches. -/
def findByPostId (stored : List StoredPost) (id : String) : Option StoredPost :=
  stored.find? (fun sp => sp.post.postId == some id)

/-- First stored post whose floor number matches. -/
def findByFloor (stored : List StoredPost) (f : Nat) : Option StoredPost :=
  stored.find? (fun sp => sp.post.floor == some f)

/-- Modelled from the spec: floor numbers are a usable identity signal when
they are present and unique within the fresh snapshot. -/
def floorsUsable (fresh : List Post) : Bool :=
  fresh.all (fun p => p.floor.isSome) && decide (fresh.filterMap Post.floor).Nodup

/-- Modelled from the spec, Identity Resolver: tiered matching.
Tier 1: a source-provided post ID that was previously seen wins exactly;
a never-seen source ID is a new post keyed by that ID. Tier 2 (no source
ID, floors usable): match by floor number, otherwise a new post keyed by
floor. Tier 3 (neither): positionally new only when no prior post sits at
that position; a prior post with identical author+timestamp+content is the
same post, and a differing prior makes the pairing uncertain, preferring
treat-as-unchanged over a spurious insert. -/
def resolvePost (stored : List StoredPost) (fok : Bool) (idx : Nat) (p : Post) :
    ResolvedPost :=
  match p.postId with
  | some id =>
    match findByPostId stored id with
    | some sp => ⟨sp.identity, p, false, .certain⟩
    | none => ⟨.src id, p, true, .certain⟩
  | none =>
    match (if fok then p.floor else none) with
    | some f =>
      match findByFloor stored f with
      | some sp => ⟨sp.identity, p, false, .certain⟩
      | none => ⟨.floorKey f, p, true, .certain⟩
    | none =>
      match stored[idx]? with
      | some sp =>
        if sameATC sp.post p then ⟨sp.identity, p, false, .certain⟩
        else ⟨sp.identity, p, false, .uncertain⟩
      | none => ⟨.positional idx, p, true, .certain⟩

/-- Resolve every fresh post, carrying its position in the fetch. -/
def resolveAux (stored : List StoredPost) (fok : Bool) :
    Nat → List Post → List ResolvedPost
  | _, [] => []
  | idx, p :: rest =>
    resolvePost stored fok idx p :: resolveAux stored fok (idx + 1) rest

/-- Modelled from the spec: the Identity Resolver maps the ordered fresh
posts to resolved identities against the thread's stored posts. -/
def resolveSnapshot (stored : List StoredPost) (fresh : List Post) :
    List ResolvedPost :=
  resolveAux stored (floorsUsable fresh) 0 fresh

/-- First stored post carrying the given resolved identity. -/
def lookupPost (stored : List StoredPost) (i : PostIdentity) : Option Post :=
  (stored.find? (fun sp => sp.identity == i)).map StoredPost.post

/-- Bucket the Diff Engine assigns to one resolved fresh post. -/
inductive DiffKind where
  | insert
  | update
  | unchanged
deriving DecidableEq, Repr

/-- Modelled from the spec, Diff Engine: no stored counterpart for the
identity means insert; an uncertain pairing is treated as unchanged; a
differing fingerprint means update, an identical one unchanged. -/
def classify (stored : List StoredPost) (r : ResolvedPost) : DiffKind :=
  match lookupPost stored r.identity with
  | none => .insert
  | some q =>
    if r.confidence = .uncertain then .unchanged
    else if fingerprint q = fingerprint r.post then .unchanged else .update

/-- The changeset produced by one sync cycle.
Modelled from the spec: inserted identities, updated identities, count of
unchanged posts, and the count of stored posts missing from the fetch. -/
structure Changeset where
  inserts : List PostIdentity
  updates : List PostIdentity
  unchangedCount : Nat
  missingInFetch : Nat
deriving DecidableEq, Repr

/-- Modelled from the spec, Diff Engine: compare the resolved fresh posts
against the stored posts; stored posts absent from the fetch are only
counted, never deleted. -/
def diffSnapshot (stored : List StoredPost) (resolved : List ResolvedPost) :
    Changeset where
  inserts :=
    (resolved.filter (fun r => classify stored r = .insert)).map ResolvedPost.identity
  updates :=
    (resolved.filter (fun r => classify stored r = .update)).map ResolvedPost.identity
  unchangedCount :=
    (resolved.filter (fun r => classify stored r = .unchanged)).length
  missingInFetch :=
    (stored.filter (fun sp => resolved.all (fun r => r.identity != sp.identity))).length

/-- Write one fresh post back over its stored counterpart when the diff
classified the pairing as an update; unchanged and uncertain pairings leave
the stored row untouched. -/
def writeBack (resolved : List ResolvedPost) (sp : StoredPost) : StoredPost :=
  match resolved.find? (fun r => r.identity == sp.identity) with
  | some r =>
    if r.confidence = .certain ∧ fingerprint r.post ≠ fingerprint sp.post then
      ⟨sp.identity, r.post⟩
    else sp
  | none => sp

/-- Modelled from the spec: apply the changeset to the Store in one logical
transaction; updates overwrite in place, inserts are appended, and nothing
is ever deleted. -/
def applyChangeset (stored : List StoredPost) (resolved : List ResolvedPost) :
    List StoredPost :=
  stored.map (writeBack resolved) ++
    (resolved.filter (fun r => (lookupPost stored r.identity).isNone)).map
      (fun r => ⟨r.identity, r.post⟩)

/-- One resolve-diff-persist cycle over an already-normalized snapshot:
the new Store contents plus the changeset. -/
def syncOnce (stored : List StoredPost) (fresh : List Post) :
    List StoredPost × Changeset :=
  let resolved := resolveSnapshot stored fresh
  (applyChangeset stored resolved, diffSnapshot stored resolved)

/-- Raw fetched data for a thread before normalization.
Modelled from the spec: thread metadata plus ordered raw post records. -/
structure RawSnapshot where
  threadUrl : Option String
  threadTitle : Option String
  rawPosts : List Post
deriving DecidableEq, Repr

/-- Modelled from the spec error taxonomy. -/
inductive SyncError where
  | fetchFailed
  | malformedSnapshot
  | persistenceFailed
  | syncInProgress
deriving DecidableEq, Repr

/-- Counts returned by one sync cycle. -/
structure SyncResult where
  inserted : Nat
  updated : Nat
  unchanged : Nat
  missingInFetch : Nat
deriving DecidableEq, Repr

/-- Modelled from the spec, Snapshot Normalizer: fails with
MalformedSnapshot when the required fields, thread URL and a title, are
absent; otherwise yields the canonical ordered posts. -/
def normalizeSnapshot (raw : RawSnapshot) : Option (List Post) :=
  match raw.threadUrl, raw.threadTitle with
  | some u, some t => if u = "" ∨ t = "" then none else some raw.rawPosts
  | _, _ => none

/-- Modelled from the spec, Sync Orchestrator: fetch, normalize, resolve,
diff, persist, with the outcomes of the external Fetcher and Store-write
capabilities passed in as parameters; every failure surfaces as a typed
error and aborts before any write is committed. -/
def runSync (stored : List StoredPost) (fetchOutcome : Option RawSnapshot)
    (persistOk : Bool) : List StoredPost × Except SyncError SyncResult :=
  match fetchOutcome with
  | none => (stored, .error .fetchFailed)
  | some raw =>
    match normalizeSnapshot raw with
    | none => (stored, .error .malformedSnapshot)
    | some fresh =>
      let out := syncOnce stored fresh
      if persistOk then
        (out.1, .ok ⟨out.2.inserts.length, out.2.updates.length,
          out.2.unchangedCount, out.2.missingInFetch⟩)
      else (stored, .error .persistenceFailed)

/-- Well-formedness of one sync round, following the spec's data-model
invariants: floors are present and unique in the fresh snapshot, source
post IDs are unique within the fresh snapshot and within the Store, floors
and resolved identities are unique within the Store, and the Identity
Resolver produces no identity collision for the snapshot. -/
structure SyncHyps (stored : List StoredPost) (fresh : List Post) : Prop where
  fokTrue : floorsUsable fresh = true
  freshIds : (fresh.filterMap Post.postId).Nodup
  storedIds : (stored.filterMap (fun sp => sp.post.postId)).Nodup
  storedFloors : (stored.filterMap (fun sp => sp.post.floor)).Nodup
  storedIdents : (stored.map StoredPost.identity).Nodup
  resolvedIdents : ((resolveSnapshot stored fresh).map ResolvedPost.identity).Nodup

/-- A floor-keyed sample post used by the concrete witnesses. -/
def demoPost (f : Nat) : Post where
  postId := none
  floor := some f
  authorName := some ("alice")
  timestamp := some 100
  contentText := some ("body " ++ toString f)
  imageUrls := []
  externalLinks := []
  iframeUrls := []
  reactions := 0

/-- A stored thread holding posts at floors 1 through 5. -/
def demoStored : List StoredPost :=
  [⟨.floorKey 1, demoPost 1⟩, ⟨.floorKey 2, demoPost 2⟩, ⟨.floorKey 3, demoPost 3⟩,
   ⟨.floorKey 4, demoPost 4⟩, ⟨.floorKey 5, demoPost 5⟩]

/-- A fresh fetch containing only floors 1 through 3. -/
def demoFresh : List Post :=
  [demoPost 1, demoPost 2, demoPost 3]

/-- A stored entry carrying a source-provided ID. -/
def demoIdEntry : StoredPost :=
  ⟨.src ("p42"), { demoPost 1 with postId := some ("p42") }⟩

/-- A stored thread whose single post carries a source-provided ID. -/
def demoIdStored : List StoredPost :=
  [demoIdEntry]

/-- The same source post refetched at a shifted floor. -/
def demoShifted (f : Nat) : Post :=
  { demoPost f with postId := some ("p42") }

end Dionysus

namespace Frontend

/-- Thread row as served by the API, from the ThreadInfo interface of
frontend/src/pages/ThreadList.tsx. -/
structure ThreadInfo where
  id : Int
  threadTitle : String
  threadUrl : String
  threadUuid : String
  categories : Option (List String)
  tags : Option (List String)
  avatarImg : Option String
  description : Option String
  createTime : String
  updateTime : String
  postsCount : Int
  latestPostTimestamp : Option String
  firstPostTimestamp : Option String
  authorsCount : Int
deriving DecidableEq, Repr

/-- Thread-list response body, from the ThreadsResponse interface. -/
structure ThreadsResponse where
  success : Bool
  message : String
  data : List ThreadInfo
  totalCount : Nat
deriving DecidableEq, Repr

/-- Post row as served by the API, from the PostInfo interface of
frontend/src/pages/ThreadDetail.tsx. -/
structure PostInfo where
  id : Int
  uuid : String
  threadUuid : String
  postId : Option String
  authorName : Option String
  authorId : Option String
  authorProfileUrl : Option String
  postTimestamp : Option Int
  contentText : Option String
  contentHtml : Option String
  imageUrls : List String
  externalLinks : List String
  iframeUrls : List String
  floor : Option Int
  reactions : Option Int
  createTime : String
  updateTime : String
deriving DecidableEq, Repr

/-- Post-list response body, from the PostsResponse interface. -/
structure PostsResponse where
  success : Bool
  message : String
  data : List PostInfo
  totalCount : Nat
deriving DecidableEq, Repr

/-- Outcome of one fetch call as observed by the component: a non-ok HTTP
status, a thrown error while reading or parsing the body, or a parsed
response body. -/
inductive HttpOutcome (α : Type) where
  | httpError (status : Nat)
  | thrown (msg : String)
  | parsed (body : α)
deriving DecidableEq, Repr

end Frontend

namespace Frontend.AppMain

/-- State of the App component in the legacy single-file frontend
(src/unnamed/part_000). -/
structure AppState where
  threads : List Frontend.ThreadInfo
  totalCount : Nat
  currentPage : Int
  error : Option String
  loading : Bool
deriving DecidableEq, Repr

/-- fetchThreads of part_000: sets loading and clears the error, then on a
non-ok status or a thrown error records only the error message, and on a
successful body replaces threads, total count and current page; finally
clears loading. -/
def fetchThreads (s : AppState) (page : Int)
    (r : Frontend.HttpOutcome Frontend.ThreadsResponse) : AppState :=
  let s0 : AppState := { s with loading := true, error := none }
  let s1 : AppState :=
    match r with
    | .httpError status => { s0 with error := some ("请求失败: " ++ toString status) }
    | .thrown msg => { s0 with error := some msg }
    | .parsed d =>
      if d.success then
        { s0 with threads := d.data, totalCount := d.totalCount, currentPage := page }
      else
        { s0 with error := some (if d.message = "" then "获取线程列表失败" else d.message) }
  { s1 with loading := false }

/-- totalPages of part_000: Math.ceil(totalCount / itemsPerPage) with
itemsPerPage = 20. -/
def totalPages (totalCount : Nat) : Nat :=
  (totalCount + 19) / 20

/-- handlePageChange of part_000: fetch the requested page only when it
lies between 1 and totalPages; the returned flag records whether a fetch
request was issued. -/
def handlePageChange (s : AppState) (page : Int)
    (r : Frontend.HttpOutcome Frontend.ThreadsResponse) : Bool × AppState :=
  if 1 ≤ page ∧ page ≤ (totalPages s.totalCount : Int) then
    (true, fetchThreads s page r)
  else
    (false, s)

/-- Rendering decision of the formatDate helper in part_000: the instant
in epoch milliseconds handed to the Date constructor, the calendar string
handed to it, or the no-date placeholder. -/
inductive DateRender where
  | noDate
  | instant (ms : Nat)
  | calendar (s : String)
deriving DecidableEq, Repr

/-- The test performed by the regular expression matching one or more
digits anchored at both ends. -/
def isAllDigits (s : String) : Bool :=
  !s.toList.isEmpty && s.toList.all Char.isDigit

/-- parseInt on a purely numeric string. -/
def parseDigits (s : String) : Nat :=
  s.toList.foldl (fun n c => n * 10 + (c.toNat - 48)) 0

/-- formatDate of part_000: a null or empty value renders the placeholder;
a purely numeric string is parsed, multiplied by 1000 when its numeric
value prints with 10 digits, and passed to Date as milliseconds; anything
else is passed to Date as a calendar date string. -/
def formatDate (dateString : Option String) : DateRender :=
  match dateString with
  | none => .noDate
  | some s =>
    if s = "" then .noDate
    else if isAllDigits s then
      let timestamp := parseDigits s
      let milliseconds :=
        if (toString timestamp).toList.length = 10 then timestamp * 1000 else timestamp
      .instant milliseconds
    else .calendar s

/-- The timestamp classification claimed by the specification: a purely
numeric value of exactly 10 digits is unix seconds, exactly 13 digits is
unix milliseconds, and any other value is parsed as a calendar date
string. Written from the spec sentence to compare with formatDate. -/
def specHeuristic (dateString : Option String) : DateRender :=
  match dateString with
  | none => .noDate
  | some s =>
    if isAllDigits s ∧ s.toList.length = 10 then .instant (parseDigits s * 1000)
    else if isAllDigits s ∧ s.toList.length = 13 then .instant (parseDigits s)
    else .calendar s

/-- The classification formatDate actually implements, phrased as the
amended heuristic: a purely numeric value whose parsed number prints with
10 digits is unix seconds, any other purely numeric value is unix
milliseconds, and only a non-numeric non-empty value is parsed as a
calendar date string. -/
def amendedHeuristic (dateString : Option String) : DateRender :=
  match dateString with
  | none => .noDate
  | some s =>
    if s = "" then .noDate
    else if isAllDigits s then
      if (toString (parseDigits s)).toList.length = 10 then .instant (parseDigits s * 1000)
      else .instant (parseDigits s)
    else .calendar s

/-- Days from the civil epoch 1970-01-01 for a Gregorian date. -/
def daysFromCivil (y : Int) (m d : Nat) : Int :=
  let y' : Int := if m ≤ 2 then y - 1 else y
  let era : Int := (if 0 ≤ y' then y' else y' - 399) / 400
  let yoe : Int := y' - era * 400
  let mp : Nat := (m + 9) % 12
  let doy : Int := ((153 * mp + 2) / 5 + d - 1 : Nat)
  let doe : Int := yoe * 365 + yoe / 4 - yoe / 100 + doy
  era * 146097 + doe - 719468

/-- Epoch milliseconds of a calendar date string in the strict
YYYY-MM-DDTHH:MM:SSZ shape, the documented behavior of the Date
constructor on ISO-8601 UTC strings; other shapes are left unmodelled. -/
def isoZuluToMillis (s : String) : Option Int :=
  match s.toList with
  | [y1, y2, y3, y4, '-', m1, m2, '-', d1, d2, 'T',
     h1, h2, ':', n1, n2, ':', s1, s2, 'Z'] =>
    if [y1, y2, y3, y4, m1, m2, d1, d2, h1, h2, n1, n2, s1, s2].all Char.isDigit then
      let dv : Char → Nat := fun c => c.toNat - 48
      let y : Int := (dv y1 * 1000 + dv y2 * 100 + dv y3 * 10 + dv y4 : Nat)
      let mo := dv m1 * 10 + dv m2
      let da := dv d1 * 10 + dv d2
      let secs : Int :=
        daysFromCivil y mo da * 86400 +
          ((dv h1 * 10 + dv h2) * 3600 + (dv n1 * 10 + dv n2) * 60 +
            (dv s1 * 10 + dv s2) : Nat)
      some (secs * 1000)
    else none
  | _ => none

/-- The canonical instant, in epoch milliseconds, that a rendering
decision denotes; calendar strings take their meaning from the ISO-8601
UTC reading. -/
def renderedInstant (r : DateRender) : Option Int :=
  match r with
  | .noDate => none
  | .instant ms => some (ms : Int)
  | .calendar s => isoZuluToMillis s

/-- A sample application state used by the concrete witnesses. -/
def demoAppState : AppState where
  threads := []
  totalCount := 100
  currentPage := 1
  error := none
  loading := false

end Frontend.AppMain

namespace Frontend.ThreadDetailPage

/-- State of the ThreadDetail component
(frontend/src/pages/ThreadDetail.tsx) relevant to posts fetching and
downloads. -/
structure DetailState where
  posts : List Frontend.PostInfo
  totalCount : Nat
  currentPage : Int
  error : Option String
  loading : Bool
  downloadingPosts : List String
deriving DecidableEq, Repr

/-- fetchPosts of ThreadDetail.tsx: on failure only the error message is
recorded; on a successful body posts, total count and current page are
replaced with the transferred data, verbatim. -/
def fetchPosts (s : DetailState) (page : Int)
    (r : Frontend.HttpOutcome Frontend.PostsResponse) : DetailState :=
  let s0 : DetailState := { s with loading := true, error := none }
  let s1 : DetailState :=
    match r with
    | .httpError status => { s0 with error := some ("请求失败: " ++ toString status) }
    | .thrown msg => { s0 with error := some msg }
    | .parsed d =>
      if d.success then
        { s0 with posts := d.data, totalCount := d.totalCount, currentPage := page }
      else
        { s0 with error := some (if d.message = "" then "获取帖子列表失败" else d.message) }
  { s1 with loading := false }

/-- formatDate of ThreadDetail.tsx: a null or zero post timestamp renders
the placeholder; any other timestamp is multiplied by 1000, that is,
interpreted as unix seconds. The result is the instant in epoch
milliseconds handed to the Date constructor, none for the placeholder. -/
def formatDate (timestamp : Option Int) : Option Int :=
  match timestamp with
  | none => none
  | some t => if t = 0 then none else some (t * 1000)

/-- The author name the post card renders: the stored author name, or the
anonymous sentinel when it is null or empty. From the JSX expression
substituting the sentinel for a falsy author_name. -/
def displayAuthorName (p : Frontend.PostInfo) : String :=
  match p.authorName with
  | some s => if s = "" then "匿名用户" else s
  | none => "匿名用户"

/-- The word-character test of the regular expression class backslash-w. -/
def isWordChar (c : Char) : Bool :=
  c.isAlphanum || c = '_'

/-- Scan for the pattern bunkr-dot followed by a word character. -/
def hasBunkrPattern : List Char → Bool
  | 'b' :: 'u' :: 'n' :: 'k' :: 'r' :: '.' :: c :: rest =>
    isWordChar c || hasBunkrPattern ('u' :: 'n' :: 'k' :: 'r' :: '.' :: c :: rest)
  | _ :: rest => hasBunkrPattern rest
  | [] => false

/-- isBunkrLink of ThreadDetail.tsx: the unanchored regular expression
test for bunkr-dot followed by a word character. -/
def isBunkrLink (url : String) : Bool :=
  hasBunkrPattern url.toList

/-- getBunkrLinksCount of ThreadDetail.tsx. -/
def getBunkrLinksCount (externalLinks : List String) : Nat :=
  (externalLinks.filter isBunkrLink).length

/-- How a call to downloadPostBunkrLinks starts: blocked with an error
message for incomplete post information, blocked with an info message when
no bunkr link exists, or the HTTP download request is issued. -/
inductive DownloadStart where
  | blockedIncomplete
  | blockedNoBunkr
  | requested (postId : String) (threadUrl : String)
deriving DecidableEq, Repr

/-- downloadPostBunkrLinks of ThreadDetail.tsx up to the point the request
is issued: a falsy post_id or thread_url shows an error message and
returns; zero bunkr links shows an info message and returns; otherwise the
post id is added to the downloading set and the request is issued. The
second component is the downloading set after this decision. -/
def downloadPostBunkrLinks (threadUrl : Option String)
    (downloading : List String) (post : Frontend.PostInfo) :
    DownloadStart × List String :=
  match post.postId, threadUrl with
  | some pid, some turl =>
    if pid = "" ∨ turl = "" then (.blockedIncomplete, downloading)
    else if getBunkrLinksCount post.externalLinks = 0 then
      (.blockedNoBunkr, downloading)
    else (.requested pid turl, downloading ++ [pid])
  | _, _ => (.blockedIncomplete, downloading)

/-- A sample post row used by the concrete witnesses. -/
def demoPostInfo : Frontend.PostInfo where
  id := 1
  uuid := ("u-1")
  threadUuid := ("t-1")
  postId := some ("post-9")
  authorName := none
  authorId := none
  authorProfileUrl := none
  postTimestamp := some 1700000000
  contentText := some ("hello")
  contentHtml := none
  imageUrls := []
  externalLinks := [("https://bunkr.si/a/abc")]
  iframeUrls := []
  floor := some 1
  reactions := some 2
  createTime := ("2025-01-01")
  updateTime := ("2025-01-02")

/-- The sample post row without a source post id. -/
def demoPostNoId : Frontend.PostInfo :=
  { demoPostInfo with postId := none }

/-- A sample component state used by the concrete witnesses. -/
def demoDetailState : DetailState where
  posts := [demoPostInfo]
  totalCount := 1
  currentPage := 1
  error := none
  loading := false
  downloadingPosts := []

end Frontend.ThreadDetailPage

namespace Frontend.ThreadListPage

/-- State of the ThreadList component
(frontend/src/pages/ThreadList.tsx) relevant to list fetching. -/
structure ListState where
  threads : List Frontend.ThreadInfo
  totalCount : Nat
  error : Option String
  loading : Bool
deriving DecidableEq, Repr

/-- fetchThreads of ThreadList.tsx: on a non-ok status, a thrown error or
an unsuccessful body only the error message is recorded; on a successful
body threads and total count are replaced. -/
def fetchThreads (s : ListState)
    (r : Frontend.HttpOutcome Frontend.ThreadsResponse) : ListState :=
  let s0 : ListState := { s with loading := true, error := none }
  let s1 : ListState :=
    match r with
    | .httpError status =>
      { s0 with error := some ("HTTP error! status: " ++ toString status) }
    | .thrown msg => { s0 with error := some msg }
    | .parsed d =>
      if d.success then
        { s0 with threads := d.data, totalCount := d.totalCount }
      else
        { s0 with error := some (if d.message = "" then "获取数据失败" else d.message) }
  { s1 with loading := false }

/-- A sample list state used by the concrete witnesses. -/
def demoListState : ListState where
  threads := []
  totalCount := 40
  error := none
  loading := false

end Frontend.ThreadListPage

namespace Dionysus

/-- find? returns the designated element when it is the unique satisfier. -/
theorem find?_eq_some_of_unique {α : Type} {l : List α} {pred : α → Bool} {e : α}
    (hmem : e ∈ l) (hpred : pred e = true)
    (huniq : ∀ x ∈ l, pred x = true → x = e) : l.find? pred = some e := by
  induction l with
  | nil => cases hmem
  | cons x t ih =>
    by_cases hx : pred x = true
    · have hxe : x = e := huniq x (List.mem_cons_self x t) hx
      rw [List.find?_cons_of_pos _ hx, hxe]
    · rw [List.find?_cons_of_neg _ hx]
      have hxe : e ∈ t := by
        rcases List.mem_cons.mp hmem with h | h
        · exact absurd (h ▸ hpred) hx
        · exact h
      exact ih hxe (fun y hy hpy => huniq y (List.mem_cons_of_mem x hy) hpy)

/-- A list whose filterMap image is duplicate-free maps distinct members to
distinct keys; equivalently, two members with the same key are equal. -/
theorem filterMap_nodup_inj {α β : Type} (k : α → Option β) (l : List α)
    (hnd : (l.filterMap k).Nodup) :
    ∀ a ∈ l, ∀ b ∈ l, ∀ v, k a = some v → k b = some v → a = b := by
  induction l with
  | nil => intro a ha; cases ha
  | cons x t ih =>
    intro a ha b hb v hka hkb
    cases hkx : k x with
    | some w =>
      rw [List.filterMap_cons_some hkx] at hnd
      have hw : w ∉ t.filterMap k := (List.nodup_cons.mp hnd).1
      have hnd' : (t.filterMap k).Nodup := (List.nodup_cons.mp hnd).2
      rcases List.mem_cons.mp ha with rfl | hat
      · rcases List.mem_cons.mp hb with rfl | hbt
        · rfl
        · exfalso
          have hvw : v = w := by rw [hka] at hkx; exact Option.some.inj hkx
          exact hw (List.mem_filterMap.mpr ⟨b, hbt, by rw [hkb, hvw]⟩)
      · rcases List.mem_cons.mp hb with rfl | hbt
        · exfalso
          have hvw : v = w := by rw [hkb] at hkx; exact Option.some.inj hkx
          exact hw (List.mem_filterMap.mpr ⟨a, hat, by rw [hka, hvw]⟩)
        · exact ih hnd' a hat b hbt v hka hkb
    | none =>
      rw [List.filterMap_cons_none hkx] at hnd
      rcases List.mem_cons.mp ha with rfl | hat
      · rw [hkx] at hka; cases hka
      · rcases List.mem_cons.mp hb with rfl | hbt
        · rw [hkx] at hkb; cases hkb
        · exact ih hnd a hat b hbt v hka hkb

/-- C3: a sync run that fails leaves the stored state of the thread exactly
as it was before the run — no partial writes — and the failure is one of
the typed errors FetchFailed, MalformedSnapshot, PersistenceFailed. -/
theorem runSync_failure_leaves_store_unchanged
    (stored : List StoredPost) (fetchOutcome : Option RawSnapshot)
    (persistOk : Bool) (e : SyncError)
    (h : (runSync stored fetchOutcome persistOk).2 = .error e) :
    (runSync stored fetchOutcome persistOk).1 = stored ∧
      (e = .fetchFailed ∨ e = .malformedSnapshot ∨ e = .persistenceFailed) := by
  cases fetchOutcome with
  | none =>
    refine ⟨by simp [runSync], ?_⟩
    simp [runSync] at h
    exact Or.inl h.symm
  | some raw =>
    cases hn : normalizeSnapshot raw with
    | none =>
      refine ⟨by simp [runSync, hn], ?_⟩
      simp [runSync, hn] at h
      exact Or.inr (Or.inl h.symm)
    | some fresh =>
      by_cases hp : persistOk
      · exfalso
        simp [runSync, hn, hp] at h
      · refine ⟨by simp [runSync, hn, hp], ?_⟩
        simp [runSync, hn, hp] at h
        exact Or.inr (Or.inr h.symm)

/-- Witness for C3 at a concrete failed fetch. -/
theorem runSync_failure_leaves_store_unchanged_witness :
    (runSync demoStored none true).1 = demoStored ∧
      (SyncError.fetchFailed = SyncError.fetchFailed ∨
        SyncError.fetchFailed = SyncError.malformedSnapshot ∨
        SyncError.fetchFailed = SyncError.persistenceFailed) :=
  runSync_failure_leaves_store_unchanged demoStored none true .fetchFailed rfl

/-- A resolved post whose identity is present in the Store is never
classified as an insert by the Diff Engine. -/
theorem classify_ne_insert {stored : List StoredPost} {r : ResolvedPost}
    (h : (lookupPost stored r.identity).isSome) : classify stored r ≠ .insert := by
  unfold classify
  cases hl : lookupPost stored r.identity with
  | none => rw [hl] at h; simp at h
  | some q =>
    simp only [hl]
    split
    · simp
    · split <;> simp

/-- C5: a post carrying an already-seen source post ID resolves to the
stored identity on every fetch, whatever its floor number, is not marked
new, and is never classified as an insert — no duplicate row. -/
theorem source_post_id_identity_stable
    (stored : List StoredPost) (id : String) (sp : StoredPost) (p q : Post)
    (fok fok' : Bool) (i j : Nat)
    (hfind : findByPostId stored id = some sp)
    (hp : p.postId = some id) (hq : q.postId = some id) :
    (resolvePost stored fok i p).identity = sp.identity ∧
      (resolvePost stored fok' j q).identity = sp.identity ∧
      (resolvePost stored fok i p).isNew = false ∧
      classify stored (resolvePost stored fok i p) ≠ .insert := by
  have hrp : resolvePost stored fok i p = ⟨sp.identity, p, false, .certain⟩ := by
    simp [resolvePost, hp, hfind]
  have hrq : resolvePost stored fok' j q = ⟨sp.identity, q, false, .certain⟩ := by
    simp [resolvePost, hq, hfind]
  have hmem : sp ∈ stored := List.mem_of_find?_eq_some hfind
  have hlook : (lookupPost stored sp.identity).isSome := by
    unfold lookupPost
    cases hfi : stored.find? (fun x => x.identity == sp.identity) with
    | none =>
      have := List.find?_eq_none.mp hfi sp hmem
      simp at this
    | some x => simp
  rw [hrp, hrq]
  exact ⟨rfl, rfl, rfl, classify_ne_insert hlook⟩

/-- Witness for C5: the same source ID refetched at floors 7 and 9. -/
theorem source_post_id_identity_stable_witness :
    (resolvePost demoIdStored true 0 (demoShifted 7)).identity = demoIdEntry.identity ∧
      (resolvePost demoIdStored false 1 (demoShifted 9)).identity = demoIdEntry.identity ∧
      (resolvePost demoIdStored true 0 (demoShifted 7)).isNew = false ∧
      classify demoIdStored (resolvePost demoIdStored true 0 (demoShifted 7)) ≠ .insert :=
  source_post_id_identity_stable demoIdStored ("p42") demoIdEntry
    (demoShifted 7) (demoShifted 9) true false 0 1 (by decide) (by decide) (by decide)

/-- C2: stored posts absent from the fresh snapshot are left untouched at
their position in the Store by the sync cycle; concretely, for floors 1..5
stored and floors 1..3 fetched, floors 4 and 5 are untouched and the
changeset reports missing_in_fetch = 2. -/
theorem missing_in_fetch_non_destructive :
    (∀ (stored : List StoredPost) (fresh : List Post) (i : Nat) (sp : StoredPost),
        stored[i]? = some sp →
        (∀ r ∈ resolveSnapshot stored fresh, r.identity ≠ sp.identity) →
        ((syncOnce stored fresh).1)[i]? = some sp) ∧
      (syncOnce demoStored demoFresh).2.missingInFetch = 2 ∧
      ((syncOnce demoStored demoFresh).1)[3]? = some ⟨.floorKey 4, demoPost 4⟩ ∧
      ((syncOnce demoStored demoFresh).1)[4]? = some ⟨.floorKey 5, demoPost 5⟩ ∧
      (syncOnce demoStored demoFresh).1 = demoStored := by
  refine ⟨?_, by decide, by decide, by decide, by decide⟩
  intro stored fresh i sp hi hno
  rcases List.getElem?_eq_some.mp hi with ⟨hlt, hget⟩
  show (applyChangeset stored (resolveSnapshot stored fresh))[i]? = some sp
  unfold applyChangeset
  rw [List.getElem?_append]
  simp only [List.length_map]
  rw [if_pos hlt, List.getElem?_map, hi]
  have hwb : writeBack (resolveSnapshot stored fresh) sp = sp := by
    unfold writeBack
    have hnone : (resolveSnapshot stored fresh).find?
        (fun r => r.identity == sp.identity) = none := by
      rw [List.find?_eq_none]
      intro r hr
      simp only [beq_iff_eq]
      exact fun hcontra => hno r hr hcontra
    rw [hnone]
  simp [hwb]

/-- Witness for C2 at the concrete stored floor 5. -/
theorem missing_in_fetch_non_destructive_witness :
    ((syncOnce demoStored demoFresh).1)[4]? = some ⟨.floorKey 5, demoPost 5⟩ :=
  missing_in_fetch_non_destructive.1 demoStored demoFresh 4 ⟨.floorKey 5, demoPost 5⟩
    (by decide) (by decide)

end Dionysus

namespace Frontend.AppMain

/-- C6 counterexample: the code does not implement the claimed digit-length
heuristic. The purely numeric 12-digit string is interpreted by the
thread-list formatter as milliseconds instead of being parsed as a
calendar date string, and the post formatter multiplies the 13-digit
numeric timestamp by 1000, reading it as seconds instead of
milliseconds. -/
theorem timestamp_heuristic_counterexample :
    formatDate (some ("123456789012")) = .instant 123456789012 ∧
      specHeuristic (some ("123456789012")) = .calendar ("123456789012") ∧
      formatDate (some ("123456789012")) ≠ specHeuristic (some ("123456789012")) ∧
      Frontend.ThreadDetailPage.formatDate (some 1700000000000) =
        some 1700000000000000 ∧
      (1700000000000000 : Int) ≠ 1700000000000 := by
  refine ⟨by decide, by decide, by decide, by decide, by decide⟩

/-- C6 amended: the thread-list formatter treats a purely numeric value
whose parsed number prints with 10 digits as unix seconds, every other
purely numeric value as unix milliseconds, and only non-numeric non-empty
values as calendar date strings; under it the inputs 1700000000 (10-digit
string), 1700000000000 (13-digit string) and the calendar string
2023-11-14T22:13:20Z all normalize to the canonical instant
1700000000000 ms. -/
theorem timestamp_normalization_amended :
    (∀ x : Option String, formatDate x = amendedHeuristic x) ∧
      renderedInstant (formatDate (some ("1700000000"))) = some 1700000000000 ∧
      renderedInstant (formatDate (some ("1700000000000"))) = some 1700000000000 ∧
      renderedInstant (formatDate (some ("2023-11-14T22:13:20Z"))) =
        some 1700000000000 := by
  refine ⟨?_, by decide, by decide, by decide⟩
  intro x
  cases x with
  | none => rfl
  | some s =>
    unfold formatDate amendedHeuristic
    by_cases h0 : s = ""
    · simp [h0]
    · by_cases hd : isAllDigits s
      · simp only [h0, hd, if_false, if_true, if_neg, if_pos]
        split <;> rfl
      · simp [h0, hd]

/-- C10: the page-change handler issues a fetch exactly when the requested
page lies between 1 and ceil(totalCount / 20); outside that range it
changes no state, and a current page within the valid range stays within
it. -/
theorem page_change_guard
    (s : AppState) (page : Int) (r : Frontend.HttpOutcome Frontend.ThreadsResponse) :
    ((handlePageChange s page r).1 = true ↔
        1 ≤ page ∧ page ≤ (totalPages s.totalCount : Int)) ∧
      (¬(1 ≤ page ∧ page ≤ (totalPages s.totalCount : Int)) →
        (handlePageChange s page r).2 = s) ∧
      (1 ≤ s.currentPage ∧ s.currentPage ≤ (totalPages s.totalCount : Int) →
        1 ≤ (handlePageChange s page r).2.currentPage ∧
          (handlePageChange s page r).2.currentPage ≤ (totalPages s.totalCount : Int)) := by
  by_cases h : 1 ≤ page ∧ page ≤ (totalPages s.totalCount : Int)
  · refine ⟨by simp [handlePageChange, h], fun hc => absurd h hc, fun hcur => ?_⟩
    have h2 : (handlePageChange s page r).2 = fetchThreads s page r := by
      simp [handlePageChange, h]
    rw [h2]
    cases r with
    | httpError st => exact hcur
    | thrown m => exact hcur
    | parsed d =>
      cases hs : d.success with
      | true =>
        have : (fetchThreads s page (.parsed d)).currentPage = page := by
          simp [fetchThreads, hs]
        rw [this]
        exact h
      | false =>
        have : (fetchThreads s page (.parsed d)).currentPage = s.currentPage := by
          simp [fetchThreads, hs]
        rw [this]
        exact hcur
  · refine ⟨by simp [handlePageChange, h], fun _ => by simp [handlePageChange, h],
      fun hcur => ?_⟩
    have h2 : (handlePageChange s page r).2 = s := by simp [handlePageChange, h]
    rw [h2]
    exact hcur

/-- Witness for C10: requesting page 6 of 5 changes nothing. -/
theorem page_change_guard_witness :
    (handlePageChange demoAppState 6 (.thrown ("x"))).2 = demoAppState :=
  (page_change_guard demoAppState 6 (.thrown ("x"))).2.1 (by decide)

end Frontend.AppMain

namespace Frontend.ThreadListPage

/-- C9: a thread-list fetch either fails — non-ok status, thrown error, or
unsuccessful body — leaving the displayed threads and the total count
exactly as they were and setting only the error message, or the response
reports success and threads plus total count are replaced by the
transferred data. -/
theorem threads_fetch_failure_preserves_state
    (s : ListState) (r : Frontend.HttpOutcome Frontend.ThreadsResponse) :
    ((fetchThreads s r).threads = s.threads ∧
        (fetchThreads s r).totalCount = s.totalCount ∧
        ∃ m, (fetchThreads s r).error = some m) ∨
      ∃ d, r = .parsed d ∧ d.success = true ∧
        (fetchThreads s r).threads = d.data ∧
        (fetchThreads s r).totalCount = d.totalCount ∧
        (fetchThreads s r).error = none := by
  cases r with
  | httpError st => exact Or.inl ⟨rfl, rfl, _, rfl⟩
  | thrown m => exact Or.inl ⟨rfl, rfl, _, rfl⟩
  | parsed d =>
    cases hs : d.success with
    | true =>
      refine Or.inr ⟨d, rfl, hs, ?_, ?_, ?_⟩ <;> simp [fetchThreads, hs]
    | false =>
      refine Or.inl ⟨?_, ?_, ?_⟩
      · simp [fetchThreads, hs]
      · simp [fetchThreads, hs]
      · exact ⟨(if d.message = "" then "获取数据失败" else d.message),
          by simp [fetchThreads, hs]⟩

end Frontend.ThreadListPage

namespace Frontend.ThreadDetailPage

/-- C7: the anonymous-author sentinel exists only at presentation time: a
post whose author name is null renders the sentinel, while the component
state always stores the transferred post records verbatim — no operation
rewrites author names, so a null stays null in the data model. -/
theorem anonymous_sentinel_presentation_only :
    (∀ p : Frontend.PostInfo, p.authorName = none → displayAuthorName p = "匿名用户") ∧
      (∀ (s : DetailState) (page : Int)
          (r : Frontend.HttpOutcome Frontend.PostsResponse),
        (fetchPosts s page r).posts = s.posts ∨
          ∃ d, r = .parsed d ∧ d.success = true ∧
            (fetchPosts s page r).posts = d.data) := by
  constructor
  · intro p hp
    simp [displayAuthorName, hp]
  · intro s page r
    cases r with
    | httpError st => exact Or.inl rfl
    | thrown m => exact Or.inl rfl
    | parsed d =>
      cases hs : d.success with
      | true => exact Or.inr ⟨d, rfl, hs, by simp [fetchPosts, hs]⟩
      | false => exact Or.inl (by simp [fetchPosts, hs])

/-- Witness for C7: the sample post with a null author renders the
sentinel. -/
theorem anonymous_sentinel_presentation_only_witness :
    displayAuthorName demoPostInfo = "匿名用户" :=
  anonymous_sentinel_presentation_only.1 demoPostInfo rfl

/-- C8: the bunkr download is requested only for a post with a truthy
post_id and at least one external link matching the bunkr pattern; when a
precondition fails the handler only shows a message and neither issues a
request nor changes the downloading set. -/
theorem download_guard (turl : Option String) (dl : List String)
    (post : Frontend.PostInfo) :
    (∀ pid u, (downloadPostBunkrLinks turl dl post).1 = .requested pid u →
        post.postId = some pid ∧ pid ≠ "" ∧
          0 < getBunkrLinksCount post.externalLinks) ∧
      (post.postId = none →
        downloadPostBunkrLinks turl dl post = (.blockedIncomplete, dl)) ∧
      (getBunkrLinksCount post.externalLinks = 0 →
        (downloadPostBunkrLinks turl dl post).2 = dl ∧
          ∀ pid u, (downloadPostBunkrLinks turl dl post).1 ≠ .requested pid u) := by
  rcases hpid : post.postId with _ | ps <;> rcases hturl : turl with _ | ts <;>
    simp only [downloadPostBunkrLinks, hpid, hturl]
  · exact ⟨(fun pid u h => nomatch h), (fun _ => trivial),
      (fun _ => ⟨trivial, fun pid u h => nomatch h⟩)⟩
  · exact ⟨(fun pid u h => nomatch h), (fun _ => trivial),
      (fun _ => ⟨trivial, fun pid u h => nomatch h⟩)⟩
  · exact ⟨(fun pid u h => nomatch h), (fun hc => nomatch hc),
      (fun _ => ⟨trivial, fun pid u h => nomatch h⟩)⟩
  · by_cases hps : ps = ""
    · rw [if_pos (Or.inl hps)]
      exact ⟨(fun pid u h => nomatch h), (fun hc => nomatch hc),
        (fun _ => ⟨rfl, fun pid u h => nomatch h⟩)⟩
    · by_cases hts : ts = ""
      · rw [if_pos (Or.inr hts)]
        exact ⟨(fun pid u h => nomatch h), (fun hc => nomatch hc),
          (fun _ => ⟨rfl, fun pid u h => nomatch h⟩)⟩
      · rw [if_neg (by simp [hps, hts])]
        by_cases hb : getBunkrLinksCount post.externalLinks = 0
        · rw [if_pos hb]
          exact ⟨(fun pid u h => nomatch h), (fun hc => nomatch hc),
            (fun _ => ⟨rfl, fun pid u h => nomatch h⟩)⟩
        · rw [if_neg hb]
          refine ⟨fun pid u h => ?_, (fun hc => nomatch hc),
            (fun hb0 => absurd hb0 hb)⟩
          have h' : DownloadStart.requested ps ts = DownloadStart.requested pid u := h
          injection h' with h1 h2
          subst h1
          exact ⟨by simp [hpid], hps, Nat.pos_of_ne_zero hb⟩

/-- Witness for C8: a post without a post id is blocked. -/
theorem download_guard_witness :
    downloadPostBunkrLinks (some ("https://example.com/t.1")) [] demoPostNoId =
      (.blockedIncomplete, []) :=
  (download_guard (some ("https://example.com/t.1")) [] demoPostNoId).2.1 rfl

end Frontend.ThreadDetailPage

namespace Dionysus

/-- The resolver never alters the post content it pairs. -/
theorem resolvePost_post (stored : List StoredPost) (fok : Bool) (i : Nat)
    (p : Post) : (resolvePost stored fok i p).post = p := by
  unfold resolvePost
  repeat' split
  all_goals rfl

/-- Tier 1 ignores the position in the fetch. -/
theorem resolvePost_postId_irrel (stored : List StoredPost) (fok fok' : Bool)
    (i j : Nat) (p : Post) (id : String) (hp : p.postId = some id) :
    resolvePost stored fok i p = resolvePost stored fok' j p := by
  simp only [resolvePost, hp]

/-- Tier 2 ignores the position in the fetch. -/
theorem resolvePost_floor_irrel (stored : List StoredPost) (fok : Bool)
    (i j : Nat) (p : Post) (f : Nat) (hp : p.postId = none)
    (hf : p.floor = some f) (hfok : fok = true) :
    resolvePost stored fok i p = resolvePost stored fok j p := by
  simp only [resolvePost, hp, hfok, hf, if_true]

/-- Tier-1 evaluation: a seen source ID adopts the stored identity. -/
theorem resolvePost_id_found (stored : List StoredPost) (fok : Bool) (i : Nat)
    (p : Post) (id : String) (sp : StoredPost) (hp : p.postId = some id)
    (hfind : findByPostId stored id = some sp) :
    resolvePost stored fok i p = ⟨sp.identity, p, false, .certain⟩ := by
  simp only [resolvePost, hp, hfind]

/-- Tier-1 evaluation: an unseen source ID is a new source-keyed post. -/
theorem resolvePost_id_new (stored : List StoredPost) (fok : Bool) (i : Nat)
    (p : Post) (id : String) (hp : p.postId = some id)
    (hfind : findByPostId stored id = none) :
    resolvePost stored fok i p = ⟨.src id, p, true, .certain⟩ := by
  simp only [resolvePost, hp, hfind]

/-- Tier-2 evaluation: a matched floor adopts the stored identity. -/
theorem resolvePost_floor_found (stored : List StoredPost) (fok : Bool) (i : Nat)
    (p : Post) (f : Nat) (sp : StoredPost) (hp : p.postId = none)
    (hf : p.floor = some f) (hfok : fok = true)
    (hfind : findByFloor stored f = some sp) :
    resolvePost stored fok i p = ⟨sp.identity, p, false, .certain⟩ := by
  simp only [resolvePost, hp, hfok, hf, if_true, hfind]

/-- Tier-2 evaluation: an unmatched floor is a new floor-keyed post. -/
theorem resolvePost_floor_new (stored : List StoredPost) (fok : Bool) (i : Nat)
    (p : Post) (f : Nat) (hp : p.postId = none) (hf : p.floor = some f)
    (hfok : fok = true) (hfind : findByFloor stored f = none) :
    resolvePost stored fok i p = ⟨.floorKey f, p, true, .certain⟩ := by
  simp only [resolvePost, hp, hfok, hf, if_true, hfind]

/-- Every fresh post is resolved at some position. -/
theorem mem_resolveAux_of_mem (stored : List StoredPost) (fok : Bool)
    (l : List Post) (p : Post) (hp : p ∈ l) :
    ∀ i, ∃ j, resolvePost stored fok j p ∈ resolveAux stored fok i l := by
  induction l with
  | nil => cases hp
  | cons q t ih =>
    intro i
    rcases List.mem_cons.mp hp with rfl | hpt
    · exact ⟨i, List.mem_cons_self _ _⟩
    · rcases ih hpt (i + 1) with ⟨j, hj⟩
      exact ⟨j, List.mem_cons_of_mem _ hj⟩

/-- Every resolved post arises from a fresh post at some position. -/
theorem mem_resolveAux_elim (stored : List StoredPost) (fok : Bool)
    (l : List Post) (r : ResolvedPost) :
    ∀ i, r ∈ resolveAux stored fok i l →
      r.post ∈ l ∧ ∃ j, r = resolvePost stored fok j r.post := by
  induction l with
  | nil => intro i h; cases h
  | cons q t ih =>
    intro i h
    rcases List.mem_cons.mp h with rfl | ht
    · rw [resolvePost_post]
      exact ⟨List.mem_cons_self _ _, i, rfl⟩
    · rcases ih (i + 1) ht with ⟨h1, j, h2⟩
      exact ⟨List.mem_cons_of_mem _ h1, j, h2⟩

/-- Resolution preserves the number of posts. -/
theorem length_resolveAux (stored : List StoredPost) (fok : Bool)
    (l : List Post) : ∀ i, (resolveAux stored fok i l).length = l.length := by
  induction l with
  | nil => intro i; rfl
  | cons q t ih => intro i; simp [resolveAux, ih]

/-- Writing back never changes the row identity. -/
theorem writeBack_identity (resolved : List ResolvedPost) (sp : StoredPost) :
    (writeBack resolved sp).identity = sp.identity := by
  unfold writeBack
  repeat' split
  all_goals rfl

/-- Evaluation of the write-back against a collision-free resolution
containing a pairing for the row. -/
theorem writeBack_eval (resolved : List ResolvedPost) (sp : StoredPost)
    (r : ResolvedPost)
    (hinj : ∀ x ∈ resolved, ∀ y ∈ resolved, x.identity = y.identity → x = y)
    (hr : r ∈ resolved) (hrid : r.identity = sp.identity) :
    writeBack resolved sp =
      if r.confidence = .certain ∧ fingerprint r.post ≠ fingerprint sp.post then
        ⟨sp.identity, r.post⟩
      else sp := by
  have hfind : resolved.find? (fun x => x.identity == sp.identity) = some r := by
    apply find?_eq_some_of_unique hr
    · exact beq_iff_eq.mpr hrid
    · intro x hx hbx
      have hbx' : (x.identity == sp.identity) = true := hbx
      exact hinj x hx r hr ((beq_iff_eq.mp hbx').trans hrid.symm)
  unfold writeBack
  rw [hfind]

/-- The write-back row is the original row or an update from the
resolution. -/
theorem writeBack_cases (resolved : List ResolvedPost) (sp : StoredPost) :
    writeBack resolved sp = sp ∨
      ∃ r ∈ resolved, r.identity = sp.identity ∧ r.confidence = .certain ∧
        fingerprint r.post ≠ fingerprint sp.post ∧
        writeBack resolved sp = ⟨sp.identity, r.post⟩ := by
  cases hf : resolved.find? (fun x => x.identity == sp.identity) with
  | none =>
    have heval : writeBack resolved sp = sp := by
      unfold writeBack
      rw [hf]
    exact Or.inl heval
  | some r =>
    have heval : writeBack resolved sp =
        if r.confidence = .certain ∧ fingerprint r.post ≠ fingerprint sp.post then
          ⟨sp.identity, r.post⟩
        else sp := by
      unfold writeBack
      rw [hf]
    by_cases hc : r.confidence = .certain ∧ fingerprint r.post ≠ fingerprint sp.post
    · have hb := List.find?_some hf
      refine Or.inr ⟨r, List.mem_of_find?_eq_some hf, beq_iff_eq.mp hb,
        hc.1, hc.2, ?_⟩
      rw [heval, if_pos hc]
    · exact Or.inl (by rw [heval, if_neg hc])

/-- An identity present in the Store has a lookup. -/
theorem lookupPost_isSome_of_mem (stored : List StoredPost) (sp : StoredPost)
    (h : sp ∈ stored) : (lookupPost stored sp.identity).isSome := by
  unfold lookupPost
  cases hf : stored.find? (fun x => x.identity == sp.identity) with
  | none =>
    have := List.find?_eq_none.mp hf sp h
    simp at this
  | some x => simp

/-- An empty lookup means no stored row carries the identity. -/
theorem lookupPost_eq_none_iff (stored : List StoredPost) (ι : PostIdentity) :
    lookupPost stored ι = none ↔ ∀ sp ∈ stored, sp.identity ≠ ι := by
  unfold lookupPost
  constructor
  · intro h sp hsp
    cases hf : stored.find? (fun x => x.identity == ι) with
    | none =>
      have := List.find?_eq_none.mp hf sp hsp
      simpa using this
    | some x => rw [hf] at h; cases h
  · intro h
    have : stored.find? (fun x => x.identity == ι) = none := by
      rw [List.find?_eq_none]
      intro x hx
      simpa using h x hx
    rw [this]
    rfl

/-- A successful lookup names a stored row carrying the identity. -/
theorem lookupPost_eq_some_elim (stored : List StoredPost) (ι : PostIdentity)
    (q : Post) (h : lookupPost stored ι = some q) :
    ∃ sp ∈ stored, sp.identity = ι ∧ sp.post = q := by
  unfold lookupPost at h
  cases hf : stored.find? (fun x => x.identity == ι) with
  | none => rw [hf] at h; cases h
  | some x =>
    rw [hf] at h
    have hb := List.find?_some hf
    refine ⟨x, List.mem_of_find?_eq_some hf, beq_iff_eq.mp hb, ?_⟩
    exact Option.some.inj h

/-- Lookup evaluates at a member when identities are collision-free. -/
theorem lookupPost_eq_some_unique (stored : List StoredPost) (e : StoredPost)
    (hinj : ∀ x ∈ stored, ∀ y ∈ stored, x.identity = y.identity → x = y)
    (he : e ∈ stored) : lookupPost stored e.identity = some e.post := by
  unfold lookupPost
  have hfind : stored.find? (fun x => x.identity == e.identity) = some e := by
    apply find?_eq_some_of_unique he
    · exact beq_iff_eq.mpr rfl
    · intro x hx hbx
      exact hinj x hx e he (beq_iff_eq.mp hbx)
  rw [hfind]
  rfl

/-- A pairing whose looked-up counterpart has the fresh fingerprint is
classified as unchanged. -/
theorem classify_unchanged_of_lookup (stored : List StoredPost)
    (r : ResolvedPost) (q : Post) (hq : lookupPost stored r.identity = some q)
    (hfp : fingerprint q = fingerprint r.post) :
    classify stored r = .unchanged := by
  unfold classify
  rw [hq]
  show (if r.confidence = .uncertain then DiffKind.unchanged
    else if fingerprint q = fingerprint r.post then DiffKind.unchanged
    else DiffKind.update) = DiffKind.unchanged
  by_cases hc : r.confidence = .uncertain
  · rw [if_pos hc]
  · rw [if_neg hc, if_pos hfp]

end Dionysus

namespace Dionysus

/-- Rows of the updated Store come from write-backs of stored rows or from
inserted resolved posts. -/
theorem applyChangeset_mem (stored : List StoredPost)
    (resolved : List ResolvedPost) (x : StoredPost)
    (hx : x ∈ applyChangeset stored resolved) :
    (∃ sp ∈ stored, x = writeBack resolved sp) ∨
      (∃ r ∈ resolved, lookupPost stored r.identity = none ∧
        x = ⟨r.identity, r.post⟩) := by
  unfold applyChangeset at hx
  rcases List.mem_append.mp hx with hm | hm
  · rcases List.mem_map.mp hm with ⟨sp, hsp, rfl⟩
    exact Or.inl ⟨sp, hsp, rfl⟩
  · rcases List.mem_map.mp hm with ⟨r, hr, rfl⟩
    rcases List.mem_filter.mp hr with ⟨hrm, hrn⟩
    exact Or.inr ⟨r, hrm, Option.isNone_iff_eq_none.mp hrn, rfl⟩

/-- The write-back of any stored row is in the updated Store. -/
theorem writeBack_mem_applyChangeset (stored : List StoredPost)
    (resolved : List ResolvedPost) (sp : StoredPost) (hsp : sp ∈ stored) :
    writeBack resolved sp ∈ applyChangeset stored resolved := by
  unfold applyChangeset
  exact List.mem_append.mpr (Or.inl (List.mem_map.mpr ⟨sp, hsp, rfl⟩))

/-- An inserted resolved post is in the updated Store. -/
theorem insert_mem_applyChangeset (stored : List StoredPost)
    (resolved : List ResolvedPost) (r : ResolvedPost) (hr : r ∈ resolved)
    (hn : lookupPost stored r.identity = none) :
    (⟨r.identity, r.post⟩ : StoredPost) ∈ applyChangeset stored resolved := by
  unfold applyChangeset
  refine List.mem_append.mpr (Or.inr (List.mem_map.mpr ⟨r, ?_, rfl⟩))
  exact List.mem_filter.mpr ⟨hr, by rw [hn]; rfl⟩

/-- The identities of the updated Store are the stored identities followed
by the inserted identities. -/
theorem applyChangeset_map_identity (stored : List StoredPost)
    (resolved : List ResolvedPost) :
    (applyChangeset stored resolved).map StoredPost.identity =
      stored.map StoredPost.identity ++
        (resolved.filter
          (fun r => (lookupPost stored r.identity).isNone)).map
            ResolvedPost.identity := by
  unfold applyChangeset
  rw [List.map_append, List.map_map, List.map_map]
  congr 1
  apply List.map_congr_left
  intro sp _
  exact writeBack_identity resolved sp

/-- The updated Store keeps identities collision-free. -/
theorem applyChangeset_ident_nodup (stored : List StoredPost)
    (resolved : List ResolvedPost)
    (hid : (stored.map StoredPost.identity).Nodup)
    (hres : (resolved.map ResolvedPost.identity).Nodup) :
    ((applyChangeset stored resolved).map StoredPost.identity).Nodup := by
  rw [applyChangeset_map_identity]
  apply List.Nodup.append
  · exact hid
  · exact List.Nodup.sublist (List.Sublist.map _ (List.filter_sublist _)) hres
  · intro a ha hb
    rcases List.mem_map.mp ha with ⟨sp, hsp, rfl⟩
    rcases List.mem_map.mp hb with ⟨r, hrf, hre⟩
    rcases List.mem_filter.mp hrf with ⟨_, hrn⟩
    have hn : lookupPost stored r.identity = none :=
      Option.isNone_iff_eq_none.mp hrn
    exact (lookupPost_eq_none_iff stored r.identity).mp hn sp hsp hre.symm

/-- find wrapper: a post-ID match is a member. -/
theorem findByPostId_mem (stored : List StoredPost) (id : String)
    (sp : StoredPost) (h : findByPostId stored id = some sp) : sp ∈ stored :=
  List.mem_of_find?_eq_some h

/-- find wrapper: a post-ID match carries the ID. -/
theorem findByPostId_key (stored : List StoredPost) (id : String)
    (sp : StoredPost) (h : findByPostId stored id = some sp) :
    sp.post.postId = some id := by
  have hb := List.find?_some h
  exact beq_iff_eq.mp hb

/-- find wrapper: an empty post-ID search means no row carries the ID. -/
theorem findByPostId_none (stored : List StoredPost) (id : String)
    (h : findByPostId stored id = none) :
    ∀ sp ∈ stored, sp.post.postId ≠ some id := by
  intro sp hsp hk
  have hb := List.find?_eq_none.mp h sp hsp
  rw [hk] at hb
  simp at hb

/-- find wrapper: the unique ID holder is found. -/
theorem findByPostId_unique (stored : List StoredPost) (id : String)
    (e : StoredPost) (he : e ∈ stored) (hk : e.post.postId = some id)
    (huniq : ∀ x ∈ stored, x.post.postId = some id → x = e) :
    findByPostId stored id = some e := by
  apply find?_eq_some_of_unique he
  · exact beq_iff_eq.mpr hk
  · intro x hx hbx
    have hbx' : (x.post.postId == some id) = true := hbx
    exact huniq x hx (beq_iff_eq.mp hbx')

/-- find wrapper: the empty post-ID search from emptiness of holders. -/
theorem findByPostId_eq_none (stored : List StoredPost) (id : String)
    (h : ∀ sp ∈ stored, sp.post.postId ≠ some id) :
    findByPostId stored id = none := by
  unfold findByPostId
  rw [List.find?_eq_none]
  intro x hx
  simpa using h x hx

/-- find wrapper: a floor match is a member. -/
theorem findByFloor_mem (stored : List StoredPost) (f : Nat) (sp : StoredPost)
    (h : findByFloor stored f = some sp) : sp ∈ stored :=
  List.mem_of_find?_eq_some h

/-- find wrapper: a floor match carries the floor. -/
theorem findByFloor_key (stored : List StoredPost) (f : Nat) (sp : StoredPost)
    (h : findByFloor stored f = some sp) : sp.post.floor = some f := by
  have hb := List.find?_some h
  exact beq_iff_eq.mp hb

/-- find wrapper: an empty floor search means no row carries the floor. -/
theorem findByFloor_none (stored : List StoredPost) (f : Nat)
    (h : findByFloor stored f = none) :
    ∀ sp ∈ stored, sp.post.floor ≠ some f := by
  intro sp hsp hk
  have hb := List.find?_eq_none.mp h sp hsp
  rw [hk] at hb
  simp at hb

/-- find wrapper: the unique floor holder is found. -/
theorem findByFloor_unique (stored : List StoredPost) (f : Nat)
    (e : StoredPost) (he : e ∈ stored) (hk : e.post.floor = some f)
    (huniq : ∀ x ∈ stored, x.post.floor = some f → x = e) :
    findByFloor stored f = some e := by
  apply find?_eq_some_of_unique he
  · exact beq_iff_eq.mpr hk
  · intro x hx hbx
    have hbx' : (x.post.floor == some f) = true := hbx
    exact huniq x hx (beq_iff_eq.mp hbx')

/-- find wrapper: the empty floor search from emptiness of holders. -/
theorem findByFloor_eq_none (stored : List StoredPost) (f : Nat)
    (h : ∀ sp ∈ stored, sp.post.floor ≠ some f) :
    findByFloor stored f = none := by
  unfold findByFloor
  rw [List.find?_eq_none]
  intro x hx
  simpa using h x hx

/-- Resolved posts of a snapshot arise from fresh posts. -/
theorem mem_resolveSnapshot_elim (stored : List StoredPost)
    (fresh : List Post) (r : ResolvedPost)
    (hr : r ∈ resolveSnapshot stored fresh) :
    r.post ∈ fresh ∧
      ∃ j, r = resolvePost stored (floorsUsable fresh) j r.post :=
  mem_resolveAux_elim stored (floorsUsable fresh) fresh r 0 hr

/-- Every fresh post appears resolved at some position in the snapshot. -/
theorem mem_resolveSnapshot_of_mem (stored : List StoredPost)
    (fresh : List Post) (p : Post) (hp : p ∈ fresh) :
    ∃ j, resolvePost stored (floorsUsable fresh) j p ∈
      resolveSnapshot stored fresh :=
  mem_resolveAux_of_mem stored (floorsUsable fresh) fresh p hp 0

/-- A resolved post holding an ID-keyed fresh post is its canonical
resolution. -/
theorem R_elem_canon_id (stored : List StoredPost) (fresh : List Post)
    (r : ResolvedPost) (hr : r ∈ resolveSnapshot stored fresh) (p : Post)
    (hpost : r.post = p) (id : String) (hpid : p.postId = some id) :
    r = resolvePost stored (floorsUsable fresh) 0 p := by
  rcases mem_resolveSnapshot_elim stored fresh r hr with ⟨_, j, hrj⟩
  rw [hpost] at hrj
  rw [hrj]
  exact resolvePost_postId_irrel stored _ _ j 0 p id hpid

/-- A resolved post holding a floor-keyed fresh post is its canonical
resolution. -/
theorem R_elem_canon_floor (stored : List StoredPost) (fresh : List Post)
    (r : ResolvedPost) (hr : r ∈ resolveSnapshot stored fresh) (p : Post)
    (hpost : r.post = p) (f : Nat) (hpid : p.postId = none)
    (hf : p.floor = some f) (hfok : floorsUsable fresh = true) :
    r = resolvePost stored (floorsUsable fresh) 0 p := by
  rcases mem_resolveSnapshot_elim stored fresh r hr with ⟨_, j, hrj⟩
  rw [hpost] at hrj
  rw [hrj]
  exact resolvePost_floor_irrel stored _ j 0 p f hpid hf hfok

/-- The canonical ID-keyed resolution is in the snapshot. -/
theorem canon_mem_R_id (stored : List StoredPost) (fresh : List Post)
    (p : Post) (hp : p ∈ fresh) (id : String) (hpid : p.postId = some id) :
    resolvePost stored (floorsUsable fresh) 0 p ∈
      resolveSnapshot stored fresh := by
  rcases mem_resolveSnapshot_of_mem stored fresh p hp with ⟨j, hj⟩
  rwa [resolvePost_postId_irrel stored _ _ j 0 p id hpid] at hj

/-- The canonical floor-keyed resolution is in the snapshot. -/
theorem canon_mem_R_floor (stored : List StoredPost) (fresh : List Post)
    (p : Post) (hp : p ∈ fresh) (f : Nat) (hpid : p.postId = none)
    (hf : p.floor = some f) (hfok : floorsUsable fresh = true) :
    resolvePost stored (floorsUsable fresh) 0 p ∈
      resolveSnapshot stored fresh := by
  rcases mem_resolveSnapshot_of_mem stored fresh p hp with ⟨j, hj⟩
  rwa [resolvePost_floor_irrel stored _ j 0 p f hpid hf hfok] at hj

/-- Decomposition of an updated-Store row matching the unique key of one
fresh post: it is a write-back of a stored row that already carried the
key, a write-back of the stored row paired with that fresh post, or the
insertion of that fresh post. -/
theorem S'_key_elim (stored : List StoredPost) (fresh : List Post)
    (keyP : Post → Bool) (p : Post)
    (hfreshKey : ∀ a ∈ fresh, keyP a = true → a = p)
    (r : ResolvedPost)
    (hrcanon : ∀ r₂ ∈ resolveSnapshot stored fresh, r₂.post = p → r₂ = r)
    (x : StoredPost)
    (hx : x ∈ applyChangeset stored (resolveSnapshot stored fresh))
    (hkx : keyP x.post = true) :
    (∃ sp ∈ stored, keyP sp.post = true ∧
        x = writeBack (resolveSnapshot stored fresh) sp) ∨
      (∃ sp ∈ stored, sp.identity = r.identity ∧
        x = writeBack (resolveSnapshot stored fresh) sp) ∨
      (lookupPost stored r.identity = none ∧ x = ⟨r.identity, r.post⟩) := by
  rcases applyChangeset_mem stored _ x hx with ⟨sp₂, hsp₂, hxw⟩ | ⟨r₂, hr₂, hlk, hxi⟩
  · rcases writeBack_cases (resolveSnapshot stored fresh) sp₂ with hwb |
      ⟨r₃, hr₃, hid₃, _, _, hwb⟩
    · refine Or.inl ⟨sp₂, hsp₂, ?_, hxw⟩
      rw [hxw, hwb] at hkx
      exact hkx
    · have hkr₃ : keyP r₃.post = true := by
        rw [hxw, hwb] at hkx
        exact hkx
      have hr₃fresh : r₃.post ∈ fresh :=
        (mem_resolveSnapshot_elim stored fresh r₃ hr₃).1
      have hr₃p : r₃.post = p := hfreshKey _ hr₃fresh hkr₃
      have hr₃r : r₃ = r := hrcanon r₃ hr₃ hr₃p
      refine Or.inr (Or.inl ⟨sp₂, hsp₂, ?_, hxw⟩)
      rw [← hr₃r, hid₃]
  · have hr₂fresh : r₂.post ∈ fresh :=
      (mem_resolveSnapshot_elim stored fresh r₂ hr₂).1
    have hkr₂ : keyP r₂.post = true := by
      rw [hxi] at hkx
      exact hkx
    have hr₂p : r₂.post = p := hfreshKey _ hr₂fresh hkr₂
    have hr₂r : r₂ = r := hrcanon r₂ hr₂ hr₂p
    rw [hr₂r] at hlk hxi
    exact Or.inr (Or.inr ⟨hlk, hxi⟩)

end Dionysus

namespace Dionysus

/-- Second-run stability for an ID-keyed fresh post: after one sync cycle
it is classified as unchanged, at every position, by the next cycle over
the same snapshot. -/
theorem secondRun_id (stored : List StoredPost) (fresh : List Post)
    (h : SyncHyps stored fresh) (p : Post) (hp : p ∈ fresh) (id : String)
    (hpid : p.postId = some id) (j : Nat) :
    classify (applyChangeset stored (resolveSnapshot stored fresh))
      (resolvePost (applyChangeset stored (resolveSnapshot stored fresh))
        (floorsUsable fresh) j p) = .unchanged := by
  set fok := floorsUsable fresh with hfok0
  set R := resolveSnapshot stored fresh with hR0
  set S' := applyChangeset stored R with hS0
  have hRinj : ∀ x ∈ R, ∀ y ∈ R, x.identity = y.identity → x = y :=
    fun x hx y hy hxy => List.inj_on_of_nodup_map h.resolvedIdents hx hy hxy
  have hSnodup : (S'.map StoredPost.identity).Nodup :=
    applyChangeset_ident_nodup stored R h.storedIdents h.resolvedIdents
  have hSinj : ∀ x ∈ S', ∀ y ∈ S', x.identity = y.identity → x = y :=
    fun x hx y hy hxy => List.inj_on_of_nodup_map hSnodup hx hy hxy
  have hstinj : ∀ x ∈ stored, ∀ y ∈ stored, x.identity = y.identity → x = y :=
    fun x hx y hy hxy => List.inj_on_of_nodup_map h.storedIdents hx hy hxy
  have hfreshKeyP : ∀ a ∈ fresh, a.postId = some id → a = p :=
    fun a ha haid =>
      filterMap_nodup_inj Post.postId fresh h.freshIds a ha p hp id haid hpid
  have hfreshKeyB : ∀ a ∈ fresh, (a.postId == some id) = true → a = p :=
    fun a ha hb => hfreshKeyP a ha (beq_iff_eq.mp hb)
  have hrR : resolvePost stored fok 0 p ∈ R :=
    canon_mem_R_id stored fresh p hp id hpid
  set r := resolvePost stored fok 0 p with hr0
  have hrpost : r.post = p := resolvePost_post stored fok 0 p
  have hrcanon : ∀ r₂ ∈ R, r₂.post = p → r₂ = r :=
    fun r₂ h₂ hp₂ => R_elem_canon_id stored fresh r₂ h₂ p hp₂ id hpid
  cases hfind : findByPostId stored id with
  | some sp =>
    have hrdef : r = ⟨sp.identity, p, false, .certain⟩ :=
      resolvePost_id_found stored fok 0 p id sp hpid hfind
    have hrid : r.identity = sp.identity := by rw [hrdef]
    have hrcert : r.confidence = .certain := by rw [hrdef]
    have hspmem : sp ∈ stored := findByPostId_mem stored id sp hfind
    have hspkey : sp.post.postId = some id := findByPostId_key stored id sp hfind
    have hEmem : writeBack R sp ∈ S' :=
      writeBack_mem_applyChangeset stored R sp hspmem
    have hEeval : writeBack R sp =
        if r.confidence = .certain ∧ fingerprint r.post ≠ fingerprint sp.post
        then ⟨sp.identity, r.post⟩ else sp :=
      writeBack_eval R sp r hRinj hrR hrid
    rw [hrcert, hrpost] at hEeval
    have hEprops : fingerprint (writeBack R sp).post = fingerprint p ∧
        (writeBack R sp).post.postId = some id := by
      by_cases hfp : fingerprint p = fingerprint sp.post
      · have hwb : writeBack R sp = sp := by
          rw [hEeval, if_neg (by simp [hfp])]
        rw [hwb]
        exact ⟨hfp.symm, hspkey⟩
      · have hwb : writeBack R sp = ⟨sp.identity, p⟩ := by
          rw [hEeval, if_pos ⟨rfl, hfp⟩]
        rw [hwb]
        exact ⟨rfl, hpid⟩
    have huniq : ∀ x ∈ S', x.post.postId = some id → x = writeBack R sp := by
      intro x hx hkx
      rcases S'_key_elim stored fresh (fun q => q.postId == some id) p
          hfreshKeyB r hrcanon x hx (beq_iff_eq.mpr hkx) with
        ⟨sp₂, hsp₂, hk₂, hx₂⟩ | ⟨sp₂, hsp₂, hi₂, hx₂⟩ | ⟨hlk, _⟩
      · have hsp₂sp : sp₂ = sp :=
          filterMap_nodup_inj (fun sp => sp.post.postId) stored h.storedIds
            sp₂ hsp₂ sp hspmem id (beq_iff_eq.mp hk₂) hspkey
        rw [hx₂, hsp₂sp]
      · have hsp₂sp : sp₂ = sp := hstinj sp₂ hsp₂ sp hspmem (hi₂.trans hrid)
        rw [hx₂, hsp₂sp]
      · exact absurd hrid.symm
          ((lookupPost_eq_none_iff stored r.identity).mp hlk sp hspmem)
    have hfindS : findByPostId S' id = some (writeBack R sp) :=
      findByPostId_unique S' id (writeBack R sp) hEmem hEprops.2 huniq
    rw [resolvePost_id_found S' fok j p id (writeBack R sp) hpid hfindS]
    apply classify_unchanged_of_lookup S' _ (writeBack R sp).post
    · exact lookupPost_eq_some_unique S' (writeBack R sp) hSinj hEmem
    · exact hEprops.1
  | none =>
    have hrdef : r = ⟨.src id, p, true, .certain⟩ :=
      resolvePost_id_new stored fok 0 p id hpid hfind
    have hrid : r.identity = .src id := by rw [hrdef]
    have hrcert : r.confidence = .certain := by rw [hrdef]
    cases hlk : lookupPost stored (.src id) with
    | none =>
      have hrlk : lookupPost stored r.identity = none := by rw [hrid]; exact hlk
      have hEmem0 : (⟨r.identity, r.post⟩ : StoredPost) ∈ S' :=
        insert_mem_applyChangeset stored R r hrR hrlk
      have hEeq : (⟨r.identity, r.post⟩ : StoredPost) = ⟨.src id, p⟩ := by
        rw [hrid, hrpost]
      rw [hEeq] at hEmem0
      have huniq : ∀ x ∈ S', x.post.postId = some id → x = ⟨.src id, p⟩ := by
        intro x hx hkx
        rcases S'_key_elim stored fresh (fun q => q.postId == some id) p
            hfreshKeyB r hrcanon x hx (beq_iff_eq.mpr hkx) with
          ⟨sp₂, hsp₂, hk₂, _⟩ | ⟨sp₂, hsp₂, hi₂, _⟩ | ⟨_, hx₂⟩
        · exact absurd (beq_iff_eq.mp hk₂)
            (findByPostId_none stored id hfind sp₂ hsp₂)
        · exact absurd (hi₂.trans hrid)
            ((lookupPost_eq_none_iff stored (.src id)).mp hlk sp₂ hsp₂)
        · rw [hx₂]
          exact hEeq
      have hfindS : findByPostId S' id = some ⟨.src id, p⟩ :=
        findByPostId_unique S' id ⟨.src id, p⟩ hEmem0 hpid huniq
      rw [resolvePost_id_found S' fok j p id ⟨.src id, p⟩ hpid hfindS]
      apply classify_unchanged_of_lookup S' _ (⟨.src id, p⟩ : StoredPost).post
      · exact lookupPost_eq_some_unique S' ⟨.src id, p⟩ hSinj hEmem0
      · rfl
    | some q₀ =>
      obtain ⟨sq, hsqmem, hsqid, _⟩ := lookupPost_eq_some_elim stored (.src id) q₀ hlk
      have hsqnotid : sq.post.postId ≠ some id :=
        findByPostId_none stored id hfind sq hsqmem
      have hEeval : writeBack R sq =
          if r.confidence = .certain ∧ fingerprint r.post ≠ fingerprint sq.post
          then ⟨sq.identity, r.post⟩ else sq :=
        writeBack_eval R sq r hRinj hrR (by rw [hrid, hsqid])
      rw [hrcert, hrpost] at hEeval
      by_cases hfp : fingerprint p = fingerprint sq.post
      · have hEsq : writeBack R sq = sq := by
          rw [hEeval, if_neg (by simp [hfp])]
        have hsqS : sq ∈ S' := by
          rw [← hEsq]
          exact writeBack_mem_applyChangeset stored R sq hsqmem
        have hnone : findByPostId S' id = none := by
          apply findByPostId_eq_none
          intro x hx hkx
          rcases S'_key_elim stored fresh (fun q => q.postId == some id) p
              hfreshKeyB r hrcanon x hx (beq_iff_eq.mpr hkx) with
            ⟨sp₂, hsp₂, hk₂, _⟩ | ⟨sp₂, hsp₂, hi₂, hx₂⟩ | ⟨hlk₂, _⟩
          · exact findByPostId_none stored id hfind sp₂ hsp₂ (beq_iff_eq.mp hk₂)
          · have hsp₂sq : sp₂ = sq :=
              hstinj sp₂ hsp₂ sq hsqmem (by rw [hi₂, hrid, hsqid])
            rw [hx₂, hsp₂sq, hEsq] at hkx
            exact hsqnotid hkx
          · rw [hrid] at hlk₂
            rw [hlk₂] at hlk
            cases hlk
        rw [resolvePost_id_new S' fok j p id hpid hnone]
        apply classify_unchanged_of_lookup S' _ sq.post
        · have hlu := lookupPost_eq_some_unique S' sq hSinj hsqS
          rw [hsqid] at hlu
          exact hlu
        · exact hfp.symm
      · have hEwr : writeBack R sq = ⟨sq.identity, p⟩ := by
          rw [hEeval, if_pos ⟨rfl, hfp⟩]
        have hEmem : (⟨sq.identity, p⟩ : StoredPost) ∈ S' := by
          rw [← hEwr]
          exact writeBack_mem_applyChangeset stored R sq hsqmem
        have huniq : ∀ x ∈ S', x.post.postId = some id →
            x = ⟨sq.identity, p⟩ := by
          intro x hx hkx
          rcases S'_key_elim stored fresh (fun q => q.postId == some id) p
              hfreshKeyB r hrcanon x hx (beq_iff_eq.mpr hkx) with
            ⟨sp₂, hsp₂, hk₂, _⟩ | ⟨sp₂, hsp₂, hi₂, hx₂⟩ | ⟨hlk₂, _⟩
          · exact absurd (beq_iff_eq.mp hk₂)
              (findByPostId_none stored id hfind sp₂ hsp₂)
          · have hsp₂sq : sp₂ = sq :=
              hstinj sp₂ hsp₂ sq hsqmem (by rw [hi₂, hrid, hsqid])
            rw [hx₂, hsp₂sq, hEwr]
          · rw [hrid] at hlk₂
            rw [hlk₂] at hlk
            cases hlk
        have hfindS : findByPostId S' id = some ⟨sq.identity, p⟩ :=
          findByPostId_unique S' id ⟨sq.identity, p⟩ hEmem hpid huniq
        rw [resolvePost_id_found S' fok j p id ⟨sq.identity, p⟩ hpid hfindS]
        apply classify_unchanged_of_lookup S' _ (⟨sq.identity, p⟩ : StoredPost).post
        · exact lookupPost_eq_some_unique S' ⟨sq.identity, p⟩ hSinj hEmem
        · rfl

end Dionysus

namespace Dionysus

/-- Second-run stability for a floor-keyed fresh post: after one sync
cycle it is classified as unchanged, at every position, by the next cycle
over the same snapshot. -/
theorem secondRun_floor (stored : List StoredPost) (fresh : List Post)
    (h : SyncHyps stored fresh) (p : Post) (hp : p ∈ fresh) (f : Nat)
    (hpid : p.postId = none) (hf : p.floor = some f) (j : Nat) :
    classify (applyChangeset stored (resolveSnapshot stored fresh))
      (resolvePost (applyChangeset stored (resolveSnapshot stored fresh))
        (floorsUsable fresh) j p) = .unchanged := by
  set fok := floorsUsable fresh with hfok0
  set R := resolveSnapshot stored fresh with hR0
  set S' := applyChangeset stored R with hS0
  have hfok : fok = true := h.fokTrue
  have hffl : (fresh.filterMap Post.floor).Nodup := by
    have hx := h.fokTrue
    unfold floorsUsable at hx
    rw [Bool.and_eq_true] at hx
    exact of_decide_eq_true hx.2
  have hRinj : ∀ x ∈ R, ∀ y ∈ R, x.identity = y.identity → x = y :=
    fun x hx y hy hxy => List.inj_on_of_nodup_map h.resolvedIdents hx hy hxy
  have hSnodup : (S'.map StoredPost.identity).Nodup :=
    applyChangeset_ident_nodup stored R h.storedIdents h.resolvedIdents
  have hSinj : ∀ x ∈ S', ∀ y ∈ S', x.identity = y.identity → x = y :=
    fun x hx y hy hxy => List.inj_on_of_nodup_map hSnodup hx hy hxy
  have hstinj : ∀ x ∈ stored, ∀ y ∈ stored, x.identity = y.identity → x = y :=
    fun x hx y hy hxy => List.inj_on_of_nodup_map h.storedIdents hx hy hxy
  have hfreshKeyP : ∀ a ∈ fresh, a.floor = some f → a = p :=
    fun a ha haf =>
      filterMap_nodup_inj Post.floor fresh hffl a ha p hp f haf hf
  have hfreshKeyB : ∀ a ∈ fresh, (a.floor == some f) = true → a = p :=
    fun a ha hb => hfreshKeyP a ha (beq_iff_eq.mp hb)
  have hrR : resolvePost stored fok 0 p ∈ R :=
    canon_mem_R_floor stored fresh p hp f hpid hf hfok
  set r := resolvePost stored fok 0 p with hr0
  have hrpost : r.post = p := resolvePost_post stored fok 0 p
  have hrcanon : ∀ r₂ ∈ R, r₂.post = p → r₂ = r :=
    fun r₂ h₂ hp₂ => R_elem_canon_floor stored fresh r₂ h₂ p hp₂ f hpid hf hfok
  cases hfind : findByFloor stored f with
  | some sp =>
    have hrdef : r = ⟨sp.identity, p, false, .certain⟩ :=
      resolvePost_floor_found stored fok 0 p f sp hpid hf hfok hfind
    have hrid : r.identity = sp.identity := by rw [hrdef]
    have hrcert : r.confidence = .certain := by rw [hrdef]
    have hspmem : sp ∈ stored := findByFloor_mem stored f sp hfind
    have hspkey : sp.post.floor = some f := findByFloor_key stored f sp hfind
    have hEmem : writeBack R sp ∈ S' :=
      writeBack_mem_applyChangeset stored R sp hspmem
    have hEeval : writeBack R sp =
        if r.confidence = .certain ∧ fingerprint r.post ≠ fingerprint sp.post
        then ⟨sp.identity, r.post⟩ else sp :=
      writeBack_eval R sp r hRinj hrR hrid
    rw [hrcert, hrpost] at hEeval
    have hEprops : fingerprint (writeBack R sp).post = fingerprint p ∧
        (writeBack R sp).post.floor = some f := by
      by_cases hfp : fingerprint p = fingerprint sp.post
      · have hwb : writeBack R sp = sp := by
          rw [hEeval, if_neg (by simp [hfp])]
        rw [hwb]
        exact ⟨hfp.symm, hspkey⟩
      · have hwb : writeBack R sp = ⟨sp.identity, p⟩ := by
          rw [hEeval, if_pos ⟨rfl, hfp⟩]
        rw [hwb]
        exact ⟨rfl, hf⟩
    have huniq : ∀ x ∈ S', x.post.floor = some f → x = writeBack R sp := by
      intro x hx hkx
      rcases S'_key_elim stored fresh (fun q => q.floor == some f) p
          hfreshKeyB r hrcanon x hx (beq_iff_eq.mpr hkx) with
        ⟨sp₂, hsp₂, hk₂, hx₂⟩ | ⟨sp₂, hsp₂, hi₂, hx₂⟩ | ⟨hlk, _⟩
      · have hsp₂sp : sp₂ = sp :=
          filterMap_nodup_inj (fun sp => sp.post.floor) stored h.storedFloors
            sp₂ hsp₂ sp hspmem f (beq_iff_eq.mp hk₂) hspkey
        rw [hx₂, hsp₂sp]
      · have hsp₂sp : sp₂ = sp := hstinj sp₂ hsp₂ sp hspmem (hi₂.trans hrid)
        rw [hx₂, hsp₂sp]
      · exact absurd hrid.symm
          ((lookupPost_eq_none_iff stored r.identity).mp hlk sp hspmem)
    have hfindS : findByFloor S' f = some (writeBack R sp) :=
      findByFloor_unique S' f (writeBack R sp) hEmem hEprops.2 huniq
    rw [resolvePost_floor_found S' fok j p f (writeBack R sp) hpid hf hfok hfindS]
    apply classify_unchanged_of_lookup S' _ (writeBack R sp).post
    · exact lookupPost_eq_some_unique S' (writeBack R sp) hSinj hEmem
    · exact hEprops.1
  | none =>
    have hrdef : r = ⟨.floorKey f, p, true, .certain⟩ :=
      resolvePost_floor_new stored fok 0 p f hpid hf hfok hfind
    have hrid : r.identity = .floorKey f := by rw [hrdef]
    have hrcert : r.confidence = .certain := by rw [hrdef]
    cases hlk : lookupPost stored (.floorKey f) with
    | none =>
      have hrlk : lookupPost stored r.identity = none := by rw [hrid]; exact hlk
      have hEmem0 : (⟨r.identity, r.post⟩ : StoredPost) ∈ S' :=
        insert_mem_applyChangeset stored R r hrR hrlk
      have hEeq : (⟨r.identity, r.post⟩ : StoredPost) = ⟨.floorKey f, p⟩ := by
        rw [hrid, hrpost]
      rw [hEeq] at hEmem0
      have huniq : ∀ x ∈ S', x.post.floor = some f → x = ⟨.floorKey f, p⟩ := by
        intro x hx hkx
        rcases S'_key_elim stored fresh (fun q => q.floor == some f) p
            hfreshKeyB r hrcanon x hx (beq_iff_eq.mpr hkx) with
          ⟨sp₂, hsp₂, hk₂, _⟩ | ⟨sp₂, hsp₂, hi₂, _⟩ | ⟨_, hx₂⟩
        · exact absurd (beq_iff_eq.mp hk₂)
            (findByFloor_none stored f hfind sp₂ hsp₂)
        · exact absurd (hi₂.trans hrid)
            ((lookupPost_eq_none_iff stored (.floorKey f)).mp hlk sp₂ hsp₂)
        · rw [hx₂]
          exact hEeq
      have hfindS : findByFloor S' f = some ⟨.floorKey f, p⟩ :=
        findByFloor_unique S' f ⟨.floorKey f, p⟩ hEmem0 hf huniq
      rw [resolvePost_floor_found S' fok j p f ⟨.floorKey f, p⟩ hpid hf hfok hfindS]
      apply classify_unchanged_of_lookup S' _ (⟨.floorKey f, p⟩ : StoredPost).post
      · exact lookupPost_eq_some_unique S' ⟨.floorKey f, p⟩ hSinj hEmem0
      · rfl
    | some q₀ =>
      obtain ⟨sq, hsqmem, hsqid, _⟩ :=
        lookupPost_eq_some_elim stored (.floorKey f) q₀ hlk
      have hsqnotfl : sq.post.floor ≠ some f :=
        findByFloor_none stored f hfind sq hsqmem
      have hEeval : writeBack R sq =
          if r.confidence = .certain ∧ fingerprint r.post ≠ fingerprint sq.post
          then ⟨sq.identity, r.post⟩ else sq :=
        writeBack_eval R sq r hRinj hrR (by rw [hrid, hsqid])
      rw [hrcert, hrpost] at hEeval
      by_cases hfp : fingerprint p = fingerprint sq.post
      · have hEsq : writeBack R sq = sq := by
          rw [hEeval, if_neg (by simp [hfp])]
        have hsqS : sq ∈ S' := by
          rw [← hEsq]
          exact writeBack_mem_applyChangeset stored R sq hsqmem
        have hnone : findByFloor S' f = none := by
          apply findByFloor_eq_none
          intro x hx hkx
          rcases S'_key_elim stored fresh (fun q => q.floor == some f) p
              hfreshKeyB r hrcanon x hx (beq_iff_eq.mpr hkx) with
            ⟨sp₂, hsp₂, hk₂, _⟩ | ⟨sp₂, hsp₂, hi₂, hx₂⟩ | ⟨hlk₂, _⟩
          · exact findByFloor_none stored f hfind sp₂ hsp₂ (beq_iff_eq.mp hk₂)
          · have hsp₂sq : sp₂ = sq :=
              hstinj sp₂ hsp₂ sq hsqmem (by rw [hi₂, hrid, hsqid])
            rw [hx₂, hsp₂sq, hEsq] at hkx
            exact hsqnotfl hkx
          · rw [hrid] at hlk₂
            rw [hlk₂] at hlk
            cases hlk
        rw [resolvePost_floor_new S' fok j p f hpid hf hfok hnone]
        apply classify_unchanged_of_lookup S' _ sq.post
        · have hlu := lookupPost_eq_some_unique S' sq hSinj hsqS
          rw [hsqid] at hlu
          exact hlu
        · exact hfp.symm
      · have hEwr : writeBack R sq = ⟨sq.identity, p⟩ := by
          rw [hEeval, if_pos ⟨rfl, hfp⟩]
        have hEmem : (⟨sq.identity, p⟩ : StoredPost) ∈ S' := by
          rw [← hEwr]
          exact writeBack_mem_applyChangeset stored R sq hsqmem
        have huniq : ∀ x ∈ S', x.post.floor = some f →
            x = ⟨sq.identity, p⟩ := by
          intro x hx hkx
          rcases S'_key_elim stored fresh (fun q => q.floor == some f) p
              hfreshKeyB r hrcanon x hx (beq_iff_eq.mpr hkx) with
            ⟨sp₂, hsp₂, hk₂, _⟩ | ⟨sp₂, hsp₂, hi₂, hx₂⟩ | ⟨hlk₂, _⟩
          · exact absurd (beq_iff_eq.mp hk₂)
              (findByFloor_none stored f hfind sp₂ hsp₂)
          · have hsp₂sq : sp₂ = sq :=
              hstinj sp₂ hsp₂ sq hsqmem (by rw [hi₂, hrid, hsqid])
            rw [hx₂, hsp₂sq, hEwr]
          · rw [hrid] at hlk₂
            rw [hlk₂] at hlk
            cases hlk
        have hfindS : findByFloor S' f = some ⟨sq.identity, p⟩ :=
          findByFloor_unique S' f ⟨sq.identity, p⟩ hEmem hf huniq
        rw [resolvePost_floor_found S' fok j p f ⟨sq.identity, p⟩ hpid hf hfok hfindS]
        apply classify_unchanged_of_lookup S' _ (⟨sq.identity, p⟩ : StoredPost).post
        · exact lookupPost_eq_some_unique S' ⟨sq.identity, p⟩ hSinj hEmem
        · rfl

end Dionysus

namespace Dionysus

/-- A diff over pairings that all classify as unchanged has empty inserts
and updates and counts every resolved post as unchanged. -/
theorem diff_all_unchanged (stored' : List StoredPost)
    (resolved : List ResolvedPost)
    (hall : ∀ r ∈ resolved, classify stored' r = .unchanged) :
    (diffSnapshot stored' resolved).inserts = [] ∧
      (diffSnapshot stored' resolved).updates = [] ∧
      (diffSnapshot stored' resolved).unchangedCount = resolved.length := by
  refine ⟨?_, ?_, ?_⟩
  · show ((resolved.filter (fun r => classify stored' r = .insert)).map
      ResolvedPost.identity) = []
    rw [List.filter_eq_nil_iff.mpr (fun a ha => by simp [hall a ha])]
    rfl
  · show ((resolved.filter (fun r => classify stored' r = .update)).map
      ResolvedPost.identity) = []
    rw [List.filter_eq_nil_iff.mpr (fun a ha => by simp [hall a ha])]
    rfl
  · show (resolved.filter (fun r => classify stored' r = .unchanged)).length =
      resolved.length
    rw [List.filter_eq_self.mpr (fun a ha => by simp [hall a ha])]

/-- C1: syncing the same snapshot twice is idempotent — for a well-formed
snapshot, the second cycle produces a changeset with zero inserts and zero
updates, classifying every post as unchanged; equivalently, a second
orchestrated sync run over an unchanged source returns a successful result
with inserted = 0 and updated = 0. -/
theorem sync_idempotent (stored : List StoredPost) (fresh : List Post)
    (h : SyncHyps stored fresh) :
    (syncOnce (syncOnce stored fresh).1 fresh).2.inserts = [] ∧
      (syncOnce (syncOnce stored fresh).1 fresh).2.updates = [] ∧
      (syncOnce (syncOnce stored fresh).1 fresh).2.unchangedCount =
        fresh.length ∧
      ∀ raw, normalizeSnapshot raw = some fresh →
        ∃ res, (runSync (runSync stored (some raw) true).1 (some raw) true).2 =
            .ok res ∧
          res.inserted = 0 ∧ res.updated = 0 ∧ res.unchanged = fresh.length := by
  have hall : ∀ r' ∈ resolveSnapshot
      (applyChangeset stored (resolveSnapshot stored fresh)) fresh,
      classify (applyChangeset stored (resolveSnapshot stored fresh)) r' =
        .unchanged := by
    intro r' hr'
    rcases mem_resolveSnapshot_elim _ fresh r' hr' with ⟨hpost, j, hrj⟩
    cases hpidc : r'.post.postId with
    | some id =>
      rw [hrj]
      exact secondRun_id stored fresh h r'.post hpost id hpidc j
    | none =>
      have hsome : (r'.post.floor).isSome := by
        have hx := h.fokTrue
        unfold floorsUsable at hx
        rw [Bool.and_eq_true] at hx
        exact List.all_eq_true.mp hx.1 r'.post hpost
      rcases Option.isSome_iff_exists.mp hsome with ⟨f, hff⟩
      rw [hrj]
      exact secondRun_floor stored fresh h r'.post hpost f hpidc hff j
  have hdiff := diff_all_unchanged
    (applyChangeset stored (resolveSnapshot stored fresh))
    (resolveSnapshot (applyChangeset stored (resolveSnapshot stored fresh)) fresh)
    hall
  have hlen : (resolveSnapshot
      (applyChangeset stored (resolveSnapshot stored fresh)) fresh).length =
      fresh.length :=
    length_resolveAux _ _ fresh 0
  have hins : (syncOnce (syncOnce stored fresh).1 fresh).2.inserts = [] := hdiff.1
  have hupd : (syncOnce (syncOnce stored fresh).1 fresh).2.updates = [] :=
    hdiff.2.1
  have hunch : (syncOnce (syncOnce stored fresh).1 fresh).2.unchangedCount =
      fresh.length := hdiff.2.2.trans hlen
  refine ⟨hins, hupd, hunch, ?_⟩
  intro raw hnorm
  have h1 : (runSync stored (some raw) true).1 = (syncOnce stored fresh).1 := by
    simp [runSync, hnorm]
  have h2 : (runSync (syncOnce stored fresh).1 (some raw) true).2 =
      .ok ⟨(syncOnce (syncOnce stored fresh).1 fresh).2.inserts.length,
        (syncOnce (syncOnce stored fresh).1 fresh).2.updates.length,
        (syncOnce (syncOnce stored fresh).1 fresh).2.unchangedCount,
        (syncOnce (syncOnce stored fresh).1 fresh).2.missingInFetch⟩ := by
    simp [runSync, hnorm]
  refine ⟨_, by rw [h1]; exact h2, ?_, ?_, ?_⟩
  · show (syncOnce (syncOnce stored fresh).1 fresh).2.inserts.length = 0
    rw [hins]
    rfl
  · show (syncOnce (syncOnce stored fresh).1 fresh).2.updates.length = 0
    rw [hupd]
    rfl
  · exact hunch

/-- Witness for C1 at the concrete floors 1..5 store and floors 1..3
fetch. -/
theorem sync_idempotent_witness :
    (syncOnce (syncOnce demoStored demoFresh).1 demoFresh).2.inserts = [] ∧
      (syncOnce (syncOnce demoStored demoFresh).1 demoFresh).2.updates = [] :=
  have hmain := sync_idempotent demoStored demoFresh
    ⟨by decide, by decide, by decide, by decide, by decide, by decide⟩
  ⟨hmain.1, hmain.2.1⟩

end Dionysus
